import Mathlib

/-!
Verification of the piano transcription pipeline of `piano_extraction.py`
(class `PianoExtractor`).

The definitions below are a shallow embedding of the Python source:
floating-point numbers are modelled as real numbers, Python's unbounded
`int` as `ℤ`, Python's floor division `//` as `Int.fdiv` and its modulo
`%` (with a positive divisor) as `Int.fmod`, `numpy.log2` as
`Real.logb 2`, and the built-in `round` (which rounds halves to the
nearest even integer, both for Python floats and for `numpy.float64`)
as `pyRound` below.  Exceptions are modelled with `Except`, and the
file system touched by the export workflow as a list of file names.
-/

namespace PianoVerify

open scoped Classical

/-- Python's built-in `round` on a float: round to the nearest integer,
with exact halves going to the nearest even integer (banker's rounding). -/
noncomputable def pyRound (x : ℝ) : ℤ :=
  if Int.fract x = 1 / 2 then (if Even ⌊x⌋ then ⌊x⌋ else ⌊x⌋ + 1) else round x

lemma pyRound_intCast (n : ℤ) : pyRound (n : ℝ) = n := by
  unfold pyRound
  rw [Int.fract_intCast]
  norm_num

/-- `pyRound` never moves its argument by more than one half. -/
lemma pyRound_bounds (x : ℝ) : x - 1 / 2 ≤ (pyRound x : ℝ) ∧ (pyRound x : ℝ) ≤ x + 1 / 2 := by
  unfold pyRound
  by_cases h : Int.fract x = 1 / 2
  · have hx : x = (⌊x⌋ : ℝ) + 1 / 2 := by
      have h2 := Int.floor_add_fract x
      rw [h] at h2
      linarith
    rw [if_pos h]
    split_ifs with he
    · constructor <;> linarith
    · constructor <;> push_cast <;> linarith
  · rw [if_neg h]
    have h2 := abs_sub_round x
    rw [abs_sub_le_iff] at h2
    constructor <;> linarith [h2.1, h2.2]

/-- In the open interval `(n - 1/2, n + 1/2)` there is no rounding tie, and
`pyRound` returns `n` there. -/
lemma pyRound_eq_of_bounds (x : ℝ) (n : ℤ) (h1 : (n : ℝ) - 1 / 2 < x)
    (h2 : x < (n : ℝ) + 1 / 2) : pyRound x = n := by
  unfold pyRound
  by_cases h : Int.fract x = 1 / 2
  · exfalso
    have hx : x = (⌊x⌋ : ℝ) + 1 / 2 := by
      have hf := Int.floor_add_fract x
      rw [h] at hf
      linarith
    have hlt : (n : ℝ) - 1 < (⌊x⌋ : ℝ) := by linarith
    have hgt : (⌊x⌋ : ℝ) < (n : ℝ) := by linarith
    have hlt' : n - 1 < ⌊x⌋ := by exact_mod_cast hlt
    have hgt' : ⌊x⌋ < n := by exact_mod_cast hgt
    omega
  · rw [if_neg h, round_eq, Int.floor_eq_iff]
    constructor
    · linarith
    · linarith

/-- `PianoExtractor.NOTE_NAMES`: the twelve chromatic pitch-class names
in sharp spelling, `['C', 'C#', 'D', 'D#', 'E', 'F', 'F#', 'G', 'G#',
'A', 'A#', 'B']`. -/
def NOTE_NAMES : List String :=
  "C" :: "C#" :: "D" :: "D#" :: "E" :: "F" :: "F#" ::
    "G" :: "G#" :: "A" :: "A#" :: "B" :: []

/-- The rounded semitone distance of a frequency from A4 = 440 Hz:
`round(12 * log2(f / 440))` in `_frequency_to_note`. -/
noncomputable def semitonesFromA4 (f : ℝ) : ℤ :=
  pyRound (12 * Real.logb 2 (f / 440))

/-- The octave computation of `_frequency_to_note` from the semitone
offset relative to C4 (`semitones_rounded + 9`).  The source branches on
the sign and, for negative offsets, computes `4 + (sC4 - 11) // 12` with
Python's floor division `//` (here `Int.fdiv`). -/
def rawOctave (sC4 : ℤ) : ℤ :=
  if 0 ≤ sC4 then 4 + Int.fdiv sC4 12 else 4 + Int.fdiv (sC4 - 11) 12

/-- The subharmonic-correction block of `_frequency_to_note`
(lines 415-431): compute note index and octave from the rounded semitone
offset, and when the octave is below 1 and the frequency below 65 Hz,
recompute both from the doubled frequency provided it lies in the piano
range `[32, 4186]`.  Returns (note index, octave, possibly doubled
frequency). -/
noncomputable def resolvePitch (f : ℝ) : ℤ × ℤ × ℝ :=
  if rawOctave (semitonesFromA4 f + 9) < 1 ∧ f < 65 then
    if 32 ≤ 2 * f ∧ 2 * f ≤ 4186 then
      (Int.fmod (semitonesFromA4 (2 * f) + 9) 12,
        rawOctave (semitonesFromA4 (2 * f) + 9), 2 * f)
    else
      (Int.fmod (semitonesFromA4 f + 9) 12, rawOctave (semitonesFromA4 f + 9), f)
  else
    (Int.fmod (semitonesFromA4 f + 9) 12, rawOctave (semitonesFromA4 f + 9), f)

/-- The final validation of `_frequency_to_note` (lines 433-447): reject
octaves outside `0..8`, decrement the octave once when the (possibly
doubled) frequency is below 30 Hz yet the octave is at least 1, and look
up the note name.  The source indexes `NOTE_NAMES[note_index]` where
`note_index ∈ [0, 11]` always holds; `getD` with an unreachable default
models that total lookup. -/
noncomputable def finalizePitch (idx oct : ℤ) (f : ℝ) : Option String × Option ℤ :=
  if oct < 0 ∨ 8 < oct then (none, none)
  else if f < 30 ∧ 1 ≤ oct then
    if oct - 1 < 0 then (none, none)
    else (some (NOTE_NAMES.getD (idx.toNat) ""), some (oct - 1))
  else (some (NOTE_NAMES.getD (idx.toNat) ""), some oct)

/-- `PianoExtractor._frequency_to_note`: frequency (Hz) to
(note name, octave), or `(none, none)` when rejected. -/
noncomputable def frequency_to_note (f : ℝ) : Option String × Option ℤ :=
  if f ≤ 0 then (none, none)
  else finalizePitch (resolvePitch f).1 (resolvePitch f).2.1 (resolvePitch f).2.2

lemma frequency_to_note_pos (f : ℝ) (h : ¬ f ≤ 0) :
    frequency_to_note f = finalizePitch (resolvePitch f).1 (resolvePitch f).2.1 (resolvePitch f).2.2 := by
  unfold frequency_to_note
  rw [if_neg h]

lemma resolvePitch_no_correction (f : ℝ)
    (h : ¬ (rawOctave (semitonesFromA4 f + 9) < 1 ∧ f < 65)) :
    resolvePitch f =
      (Int.fmod (semitonesFromA4 f + 9) 12, rawOctave (semitonesFromA4 f + 9), f) := by
  unfold resolvePitch
  rw [if_neg h]

lemma semitonesFromA4_at_220 : semitonesFromA4 220 = -12 := by
  unfold semitonesFromA4
  have h : (220 : ℝ) / 440 = (2 : ℝ)⁻¹ := by norm_num
  rw [h, Real.logb_inv, Real.logb_self_eq_one (by norm_num : (1:ℝ) < 2)]
  norm_num
  exact_mod_cast pyRound_intCast (-12)

/-- C1: the Pitch Mapper at A3 = 220 Hz.  The rounded semitone offset from
A4 is -12, so the offset relative to C4 is -3, whose true floor division
by 12 is -1 and would give octave 3.  The source instead computes
`4 + (-3 - 11) // 12 = 4 + (-2) = 2` (its "(x - 11) // 12" adjustment
double-floors under Python's already-flooring `//`), so 220 Hz is mapped
to octave 2, contradicting both the claim and the code's own comments. -/
theorem c1_frequency_to_note_at_A3 : frequency_to_note 220 = (some "A", some 2) := by
  rw [frequency_to_note_pos 220 (by norm_num)]
  rw [resolvePitch_no_correction 220 (by
    rw [semitonesFromA4_at_220]
    rintro ⟨-, h2⟩
    norm_num at h2)]
  rw [semitonesFromA4_at_220]
  have hi : Int.fmod (-12 + 9 : ℤ) 12 = 9 := by decide
  have ho : rawOctave (-12 + 9) = 2 := by decide
  rw [hi, ho]
  unfold finalizePitch
  rw [if_neg (by norm_num)]
  rw [if_neg (by rintro ⟨h1, -⟩; norm_num at h1)]
  rfl

lemma semitonesFromA4_at_7040 : semitonesFromA4 7040 = 48 := by
  unfold semitonesFromA4
  have h : (7040 : ℝ) / 440 = (2 : ℝ) ^ (4 : ℕ) := by norm_num
  rw [h, Real.logb_pow, Real.logb_self_eq_one (by norm_num : (1:ℝ) < 2)]
  norm_num
  exact_mod_cast pyRound_intCast 48

lemma rawOctave_57 : rawOctave 57 = 8 := by decide

/-- C3 counterexample: 7040 Hz (A8, four octaves above A4) is far above
the claimed 5000 Hz cut-off, yet the Pitch Mapper resolves it to the
note A in octave 8 instead of returning `(none, none)`: the mapper only
rejects frequencies whose resolved octave exceeds 8. -/
theorem c3_counterexample :
    (5000 : ℝ) < 7040 ∧ frequency_to_note 7040 = (some "A", some 8) := by
  refine ⟨by norm_num, ?_⟩
  rw [frequency_to_note_pos 7040 (by norm_num)]
  rw [resolvePitch_no_correction 7040 (by
    rw [semitonesFromA4_at_7040]
    rintro ⟨h1, -⟩
    rw [show (48 : ℤ) + 9 = 57 by norm_num, rawOctave_57] at h1
    omega)]
  rw [semitonesFromA4_at_7040]
  have hi : Int.fmod (48 + 9 : ℤ) 12 = 9 := by decide
  rw [hi, show (48 : ℤ) + 9 = 57 by norm_num, rawOctave_57]
  unfold finalizePitch
  rw [if_neg (by norm_num)]
  rw [if_neg (by rintro ⟨h1, -⟩; norm_num at h1)]
  rfl

lemma pow24_lower : (16 : ℝ) / 440 < (2 : ℝ) ^ ((-113 : ℝ) / 24) := by
  have hpow : ((16 : ℝ) / 440) ^ (24 : ℕ) < ((2 : ℝ) ^ ((-113 : ℝ) / 24)) ^ (24 : ℕ) := by
    have hr : ((2 : ℝ) ^ ((-113 : ℝ) / 24)) ^ (24 : ℕ) = (2 : ℝ) ^ ((-113 : ℝ)) := by
      rw [← Real.rpow_natCast ((2 : ℝ) ^ ((-113 : ℝ) / 24)) 24,
        ← Real.rpow_mul (by norm_num : (0:ℝ) ≤ 2)]
      norm_num
    have hneg : (2 : ℝ) ^ ((-113 : ℝ)) = ((2 : ℝ) ^ (113 : ℕ))⁻¹ := by
      rw [← Real.rpow_natCast 2 113, ← Real.rpow_neg (by norm_num : (0:ℝ) ≤ 2)]
      norm_num
    rw [hr, hneg]
    norm_num
  exact lt_of_pow_lt_pow_left₀ 24 (Real.rpow_nonneg (by norm_num) _) hpow

lemma pow24_upper : (2 : ℝ) ^ ((101 : ℝ) / 24) < 8146 / 440 := by
  have hpow : ((2 : ℝ) ^ ((101 : ℝ) / 24)) ^ (24 : ℕ) < ((8146 : ℝ) / 440) ^ (24 : ℕ) := by
    have hr : ((2 : ℝ) ^ ((101 : ℝ) / 24)) ^ (24 : ℕ) = (2 : ℝ) ^ ((101 : ℝ)) := by
      rw [← Real.rpow_natCast ((2 : ℝ) ^ ((101 : ℝ) / 24)) 24,
        ← Real.rpow_mul (by norm_num : (0:ℝ) ≤ 2)]
      norm_num
    have hnat : (2 : ℝ) ^ ((101 : ℝ)) = (2 : ℝ) ^ (101 : ℕ) := by
      rw [← Real.rpow_natCast 2 101]
      norm_num
    rw [hr, hnat]
    norm_num
  exact lt_of_pow_lt_pow_left₀ 24 (by positivity) hpow

/-- C3 amended: the Pitch Mapper rejects every frequency below 16 Hz
(such a frequency rounds at least 57 semitones below A4, the raw octave
is at most -1, and doubling cannot reach the 32 Hz floor of the
correction window, so the octave stays below 0) and every frequency of
at least 8146 Hz (which rounds at least 51 semitones above A4 and lands
in octave 9 or higher).  Between those bounds and the claimed 20 Hz /
5000 Hz thresholds the mapper in fact returns octave-0 or octave-8
pitches, as the counterexample shows. -/
theorem c3_amended (f : ℝ) :
    (0 < f → f < 16 → frequency_to_note f = (none, none)) ∧
    (8146 ≤ f → frequency_to_note f = (none, none)) := by
  constructor
  · intro hf0 hf16
    have hfneg : ¬ f ≤ 0 := not_le.mpr hf0
    rw [frequency_to_note_pos f hfneg]
    have hdiv : f / 440 < 16 / 440 := by linarith
    have hlogb : Real.logb 2 (f / 440) < Real.logb 2 (16 / 440) :=
      Real.logb_lt_logb (by norm_num) (by positivity) hdiv
    have hlt : Real.logb 2 ((16 : ℝ) / 440) < (-113 : ℝ) / 24 :=
      (Real.logb_lt_iff_lt_rpow (by norm_num) (by norm_num)).mpr pow24_lower
    have hx : 12 * Real.logb 2 (f / 440) < -56.5 := by
      have h565 : (12 : ℝ) * ((-113 : ℝ) / 24) = -56.5 := by norm_num
      nlinarith
    have hrR : (semitonesFromA4 f : ℝ) < -56 := by
      have hb := (pyRound_bounds (12 * Real.logb 2 (f / 440))).2
      unfold semitonesFromA4
      linarith
    have hr : semitonesFromA4 f ≤ -57 := by
      have : semitonesFromA4 f < -56 := by exact_mod_cast hrR
      omega
    have hoct : rawOctave (semitonesFromA4 f + 9) ≤ -1 := by
      unfold rawOctave
      rw [if_neg (by omega)]
      rw [Int.fdiv_eq_ediv _ (by norm_num)]
      have h2 : (semitonesFromA4 f + 9 - 11) / 12 ≤ (-59 : ℤ) / 12 :=
        Int.ediv_le_ediv (by norm_num) (by omega)
      have h3 : ((-59 : ℤ)) / 12 = -5 := by decide
      omega
    unfold resolvePitch
    rw [if_pos ⟨by omega, by linarith⟩]
    rw [if_neg (by rintro ⟨h32, -⟩; linarith)]
    dsimp only
    unfold finalizePitch
    rw [if_pos (Or.inl (by omega))]
  · intro hf
    have hfneg : ¬ f ≤ 0 := by push_neg; linarith
    rw [frequency_to_note_pos f hfneg]
    have h1 : (101 : ℝ) / 24 < Real.logb 2 ((8146 : ℝ) / 440) :=
      (Real.lt_logb_iff_rpow_lt (by norm_num) (by norm_num)).mpr pow24_upper
    have h2 : Real.logb 2 ((8146 : ℝ) / 440) ≤ Real.logb 2 (f / 440) :=
      Real.logb_le_logb_of_le (by norm_num) (by norm_num) (by linarith)
    have hx : (50.5 : ℝ) < 12 * Real.logb 2 (f / 440) := by
      have h505 : (12 : ℝ) * ((101 : ℝ) / 24) = 50.5 := by norm_num
      nlinarith
    have hrR : (50 : ℝ) < (semitonesFromA4 f : ℝ) := by
      have hb := (pyRound_bounds (12 * Real.logb 2 (f / 440))).1
      unfold semitonesFromA4
      linarith
    have hr : 51 ≤ semitonesFromA4 f := by
      have : (50 : ℤ) < semitonesFromA4 f := by exact_mod_cast hrR
      omega
    have hoct : 9 ≤ rawOctave (semitonesFromA4 f + 9) := by
      unfold rawOctave
      rw [if_pos (by omega)]
      rw [Int.fdiv_eq_ediv _ (by norm_num)]
      have h2' : (60 : ℤ) / 12 ≤ (semitonesFromA4 f + 9) / 12 :=
        Int.ediv_le_ediv (by norm_num) (by omega)
      have h3 : ((60 : ℤ)) / 12 = 5 := by decide
      omega
    unfold resolvePitch
    rw [if_neg (by rintro ⟨hlt1, -⟩; omega)]
    dsimp only
    unfold finalizePitch
    rw [if_pos (Or.inr (by omega))]

/-- C3 amended, witness: 10 Hz and 9000 Hz are both rejected. -/
theorem c3_amended_witness :
    frequency_to_note 10 = (none, none) ∧ frequency_to_note 9000 = (none, none) :=
  ⟨(c3_amended 10).1 (by norm_num) (by norm_num),
    (c3_amended 9000).2 (by norm_num)⟩

/-- The fixed set of standard note durations (in seconds at the reference
tempo) used by the duration quantizer in `extract_notes_from_piano_audio`:
`standard_durations = [4.0, 2.0, 1.0, 0.5, 0.25, 0.125, 0.0625]`. -/
noncomputable def stdDurations : List ℝ := [4, 2, 1, 0.5, 0.25, 0.125, 0.0625]

/-- Python's `min(lst, key=lambda x: abs(x - d))`: the first element of
`lst` whose distance to `d` is minimal.  Python `min` raises on an empty
list; that case is unreachable here and returns `d`. -/
noncomputable def pyMinByDist (d : ℝ) : List ℝ → ℝ
  | [] => d
  | h :: t => t.foldl (fun b x => if |x - d| < |b - d| then x else b) h

/-- `min(standard_durations, key=lambda x: abs(x - duration))`. -/
noncomputable def nearestStandard (d : ℝ) : ℝ := pyMinByDist d stdDurations

/-- The duration quantization of `extract_notes_from_piano_audio`
(lines 366-371): snap to the nearest standard duration, but keep the
measured duration when the snapped value falls below 70% of it. -/
noncomputable def quantizeDuration (d : ℝ) : ℝ :=
  if nearestStandard d < d * 0.7 then d else nearestStandard d

lemma foldl_minByDist_mem (d : ℝ) (l : List ℝ) (init : ℝ) :
    l.foldl (fun b x => if |x - d| < |b - d| then x else b) init ∈ init :: l := by
  induction l generalizing init with
  | nil => simp
  | cons a t ih =>
    simp only [List.foldl_cons]
    have ih' := ih (if |a - d| < |init - d| then a else init)
    rcases List.mem_cons.mp ih' with h | h
    · rw [h]
      split_ifs
      · simp
      · simp
    · simp [h]

lemma foldl_minByDist_le (d : ℝ) (l : List ℝ) (init : ℝ) :
    ∀ s ∈ init :: l,
      |l.foldl (fun b x => if |x - d| < |b - d| then x else b) init - d| ≤ |s - d| := by
  induction l generalizing init with
  | nil =>
    intro s hs
    rcases List.mem_cons.mp hs with h | h
    · simp [h]
    · simp at h
  | cons a t ih =>
    intro s hs
    simp only [List.foldl_cons]
    have hstep : |(if |a - d| < |init - d| then a else init) - d| ≤ |init - d| ∧
        |(if |a - d| < |init - d| then a else init) - d| ≤ |a - d| := by
      split_ifs with hc
      · exact ⟨le_of_lt hc, le_refl _⟩
      · exact ⟨le_refl _, le_of_not_lt hc⟩
    rcases List.mem_cons.mp hs with h | h
    · calc |t.foldl (fun b x => if |x - d| < |b - d| then x else b)
              (if |a - d| < |init - d| then a else init) - d|
          ≤ |(if |a - d| < |init - d| then a else init) - d| :=
            ih _ _ (List.mem_cons_self _ _)
        _ ≤ |init - d| := hstep.1
        _ = |s - d| := by rw [h]
    · rcases List.mem_cons.mp h with h2 | h2
      · calc |t.foldl (fun b x => if |x - d| < |b - d| then x else b)
                (if |a - d| < |init - d| then a else init) - d|
            ≤ |(if |a - d| < |init - d| then a else init) - d| :=
              ih _ _ (List.mem_cons_self _ _)
          _ ≤ |a - d| := hstep.2
          _ = |s - d| := by rw [h2]
      · exact ih _ s (List.mem_cons_of_mem _ h2)

lemma nearestStandard_mem (d : ℝ) : nearestStandard d ∈ stdDurations := by
  have h := foldl_minByDist_mem d [2, 1, 0.5, 0.25, 0.125, 0.0625] 4
  simpa [nearestStandard, pyMinByDist, stdDurations] using h

lemma nearestStandard_min (d : ℝ) : ∀ s ∈ stdDurations, |nearestStandard d - d| ≤ |s - d| := by
  have h := foldl_minByDist_le d [2, 1, 0.5, 0.25, 0.125, 0.0625] 4
  intro s hs
  have hs' : s ∈ (4 : ℝ) :: [2, 1, 0.5, 0.25, 0.125, 0.0625] := by
    simpa [stdDurations] using hs
  simpa [nearestStandard, pyMinByDist, stdDurations] using h s hs'

/-- C8: the Duration Quantizer snaps a measured duration `d` to a member
of the fixed standard set at minimal distance `|q - d|`, and keeps `d`
unchanged exactly when that nearest value falls below `0.7 * d`. -/
theorem c8_duration_quantizer (d : ℝ) :
    nearestStandard d ∈ stdDurations ∧
    (∀ s ∈ stdDurations, |nearestStandard d - d| ≤ |s - d|) ∧
    (nearestStandard d < d * 0.7 → quantizeDuration d = d) ∧
    (¬ nearestStandard d < d * 0.7 → quantizeDuration d = nearestStandard d) := by
  refine ⟨nearestStandard_mem d, nearestStandard_min d, ?_, ?_⟩
  · intro h
    unfold quantizeDuration
    rw [if_pos h]
  · intro h
    unfold quantizeDuration
    rw [if_neg h]

/-- C8 witness: at the measured duration 0.12 s the nearest standard
value is an eighth of a second, which is at least 70% of 0.12, so it is
the quantized result and its distance to 0.12 is minimal. -/
theorem c8_duration_quantizer_witness :
    quantizeDuration 0.12 = nearestStandard 0.12 ∧
    |nearestStandard 0.12 - 0.12| ≤ |(0.0625 : ℝ) - 0.12| := by
  have h := c8_duration_quantizer 0.12
  refine ⟨h.2.2.2 ?_, h.2.1 0.0625 (by simp [stdDurations])⟩
  have hn : nearestStandard (0.12 : ℝ) = 0.125 := by
    norm_num [nearestStandard, pyMinByDist, stdDurations, List.foldl,
      abs_of_nonneg, abs_of_nonpos]
  rw [hn]
  norm_num

lemma quantizeDuration_fixed (q : ℝ) (hq : q ∈ stdDurations) : quantizeDuration q = q := by
  have hq' : q = 4 ∨ q = 2 ∨ q = 1 ∨ q = 0.5 ∨ q = 0.25 ∨ q = 0.125 ∨ q = 0.0625 := by
    simpa [stdDurations] using hq
  rcases hq' with h | h | h | h | h | h | h <;>
    (subst h
     unfold quantizeDuration
     norm_num [nearestStandard, pyMinByDist, stdDurations, List.foldl,
       abs_of_nonneg, abs_of_nonpos])

/-- C9: the duration-quantization map is idempotent.  When the 70% rule
keeps the measured duration, a second application keeps it again; when
the result is a standard value, that value is its own nearest standard
value and is never below 70% of itself. -/
theorem c9_quantization_idempotent (d : ℝ) :
    quantizeDuration (quantizeDuration d) = quantizeDuration d := by
  by_cases h : nearestStandard d < d * 0.7
  · have hd : quantizeDuration d = d := by
      unfold quantizeDuration
      rw [if_pos h]
    rw [hd]
    exact hd
  · have hd : quantizeDuration d = nearestStandard d := by
      unfold quantizeDuration
      rw [if_neg h]
    rw [hd]
    exact quantizeDuration_fixed _ (nearestStandard_mem d)

/-- One analysis frame of the per-frame pitch stream fed to the note
segmenter: its time stamp, the tracked fundamental frequency (`none`
models `NaN`), and the voiced flag. -/
structure Frame where
  time : ℝ
  f0 : Option ℝ
  voiced : Bool

/-- A note event `(time, note_name, octave, frequency, duration)` as
produced by `extract_notes_from_piano_audio`. -/
structure PNote where
  time : ℝ
  name : String
  octave : ℤ
  freq : ℝ
  duration : ℝ

/-- An open (not yet closed) note of the segmentation loop:
`current_note` minus its placeholder duration; `current_note_start_time`
always equals the stored onset time. -/
structure OpenNote where
  time : ℝ
  name : String
  octave : ℤ
  freq : ℝ

/-- The frame-validity test of the segmentation loop (line 241):
`not isnan(freq) and voiced_flag[i] and effective_fmin <= freq <=
effective_fmax`, with `effective_fmin = max(27.5, 60) = 60` and
`effective_fmax = min(4186, 2000) = 2000` for the default arguments. -/
noncomputable def validFreq (fr : Frame) : Option ℝ :=
  match fr.f0 with
  | none => none
  | some f => if fr.voiced = true ∧ 60 ≤ f ∧ f ≤ 2000 then some f else none

/-- The per-frame pitch resolution of the segmentation loop
(lines 242-267): map the frequency to a symbolic pitch, correct an
octave below 1 by doubling the frequency (accepted only when the doubled
frequency stays in the effective range and resolves to octave 1..7), and
drop frames resolving above octave 7.  `none` models the loop's
`continue`, which skips the frame without closing an open note. -/
noncomputable def resolveFrame (f : ℝ) : Option (String × ℤ × ℝ) :=
  match frequency_to_note f with
  | (some name, some oct) =>
    if oct < 1 then
      if 60 ≤ 2 * f ∧ 2 * f ≤ 2000 then
        match frequency_to_note (2 * f) with
        | (some name2, some oct2) =>
          if 1 ≤ oct2 ∧ oct2 ≤ 7 then some (name2, oct2, 2 * f) else none
        | _ => none
      else none
    else if 7 < oct then none
    else some (name, oct, f)
  | _ => none

/-- Close the open note `c` at time `t`: append it to the accumulator
when it lasted at least the 100 ms minimum note duration, else drop it
(lines 283-290 and 296-306). -/
noncomputable def closeNote (acc : List PNote) (c : OpenNote) (t : ℝ) : List PNote :=
  if 0.1 ≤ t - c.time then
    acc ++ [⟨c.time, c.name, c.octave, c.freq, t - c.time⟩]
  else acc

/-- One iteration of the segmentation state machine
(lines 238-306): on a valid voiced frame, either continue the open note
(same symbolic pitch within 50 cents), or close it and open a new one;
on an invalid frame, close any open note. -/
noncomputable def stepFrame (st : Option OpenNote × List PNote) (fr : Frame) :
    Option OpenNote × List PNote :=
  match validFreq fr with
  | some f =>
    match resolveFrame f with
    | none => st
    | some (name, oct, f2) =>
      match st.1 with
      | some c =>
        let ratio := if 0 < c.freq then f2 / c.freq else 1
        let cents := if 0 < ratio then 1200 * Real.logb 2 ratio else 1000
        if |cents| < 50 ∧ c.name = name ∧ c.octave = oct then st
        else (some ⟨fr.time, name, oct, f2⟩, closeNote st.2 c fr.time)
      | none => (some ⟨fr.time, name, oct, f2⟩, st.2)
  | none =>
    match st.1 with
    | some c => (none, closeNote st.2 c fr.time)
    | none => st

/-- The whole segmentation pass of `extract_notes_from_piano_audio`
(lines 227-316): run the state machine over every frame, then close a
note still open at the end of the stream at the extrapolated time
`times[-1] + (times[1] - times[0])` (or `times[-1]` for a single
frame). -/
noncomputable def segmentNotes (frames : List Frame) : List PNote :=
  let r := frames.foldl stepFrame (none, [])
  match r.1 with
  | none => r.2
  | some c =>
    if 0 < frames.length then
      let times := frames.map Frame.time
      let finalTime :=
        if 1 < frames.length then times.getLastD 0 + (times.getD 1 0 - times.getD 0 0)
        else times.getLastD 0
      closeNote r.2 c finalTime
    else r.2

/-- Stable insertion preserving the relative order of equal onset times:
the building block of `notes.sort(key=lambda x: x[0])` (line 319). -/
noncomputable def insertByTime (n : PNote) : List PNote → List PNote
  | [] => [n]
  | m :: ms => if n.time ≤ m.time then n :: m :: ms else m :: insertByTime n ms

/-- `notes.sort(key=lambda x: x[0])`: a stable sort by onset time. -/
noncomputable def sortByTime (l : List PNote) : List PNote :=
  l.foldr insertByTime []

/-- One step of the onset-gap post-filter (lines 326-357): always keep
the first note; keep a later note when its onset is at least 50 ms after
the previous kept onset or its pitch differs; otherwise (same pitch,
onsets within 50 ms) extend the previous kept note to cover it. -/
noncomputable def filterStep (acc : List PNote) (note : PNote) : List PNote :=
  match acc.getLast? with
  | none => [note]
  | some prev =>
    if 0.05 ≤ note.time - prev.time ∨ ¬ (prev.name = note.name ∧ prev.octave = note.octave)
    then acc ++ [note]
    else acc.dropLast ++
      [⟨prev.time, prev.name, prev.octave, prev.freq, note.time + note.duration - prev.time⟩]

/-- The onset-gap post-filter over the sorted note list. -/
noncomputable def filterCloseNotes (notes : List PNote) : List PNote :=
  notes.foldl filterStep []

/-- The final quantization pass (lines 360-373). -/
noncomputable def quantizeNotes (notes : List PNote) : List PNote :=
  notes.map fun n => ⟨n.time, n.name, n.octave, n.freq, quantizeDuration n.duration⟩

/-- `extract_notes_from_piano_audio` downstream of the pitch tracker:
segmentation, sorting, onset-gap filtering and duration quantization
applied to the per-frame pitch stream. -/
noncomputable def extract_notes_from_piano_audio (frames : List Frame) : List PNote :=
  quantizeNotes (filterCloseNotes (sortByTime (segmentNotes frames)))

lemma resolveFrame_octave (f : ℝ) (name : String) (oct : ℤ) (f2 : ℝ)
    (h : resolveFrame f = some (name, oct, f2)) : 1 ≤ oct ∧ oct ≤ 7 := by
  unfold resolveFrame at h
  rcases hf : frequency_to_note f with ⟨n1, o1⟩
  rw [hf] at h
  match n1, o1 with
  | none, o1 => cases h
  | some nm, none => cases h
  | some nm, some oc =>
    simp only at h
    by_cases h1 : oc < 1
    · rw [if_pos h1] at h
      by_cases hrange : 60 ≤ 2 * f ∧ 2 * f ≤ 2000
      · rw [if_pos hrange] at h
        rcases hf2 : frequency_to_note (2 * f) with ⟨n2, o2⟩
        rw [hf2] at h
        match n2, o2 with
        | none, o2 => cases h
        | some nm2, none => cases h
        | some nm2, some oc2 =>
          simp only at h
          by_cases h3 : 1 ≤ oc2 ∧ oc2 ≤ 7
          · rw [if_pos h3] at h
            simp only [Option.some.injEq, Prod.mk.injEq] at h
            obtain ⟨-, h5, -⟩ := h
            rw [← h5]
            exact h3
          · rw [if_neg h3] at h
            cases h
      · rw [if_neg hrange] at h
        cases h
    · rw [if_neg h1] at h
      by_cases h2 : 7 < oc
      · rw [if_pos h2] at h
        cases h
      · rw [if_neg h2] at h
        simp only [Option.some.injEq, Prod.mk.injEq] at h
        obtain ⟨-, h5, -⟩ := h
        rw [← h5]
        omega

lemma closeNote_inv (acc : List PNote) (c : OpenNote) (t : ℝ)
    (hacc : ∀ n ∈ acc, 1 ≤ n.octave ∧ n.octave ≤ 7)
    (hc : 1 ≤ c.octave ∧ c.octave ≤ 7) :
    ∀ n ∈ closeNote acc c t, 1 ≤ n.octave ∧ n.octave ≤ 7 := by
  intro n hn
  unfold closeNote at hn
  split_ifs at hn
  · rcases List.mem_append.mp hn with h | h
    · exact hacc n h
    · simp at h
      rw [h]
      exact hc
  · exact hacc n hn

lemma stepFrame_inv (st : Option OpenNote × List PNote) (fr : Frame)
    (hacc : ∀ n ∈ st.2, 1 ≤ n.octave ∧ n.octave ≤ 7)
    (hcur : ∀ c, st.1 = some c → 1 ≤ c.octave ∧ c.octave ≤ 7) :
    (∀ n ∈ (stepFrame st fr).2, 1 ≤ n.octave ∧ n.octave ≤ 7) ∧
    (∀ c, (stepFrame st fr).1 = some c → 1 ≤ c.octave ∧ c.octave ≤ 7) := by
  obtain ⟨cur, acc⟩ := st
  dsimp only at hacc hcur ⊢
  unfold stepFrame
  rcases hv : validFreq fr with - | f
  · dsimp only
    rcases hc : cur with - | c
    · exact ⟨hacc, fun c2 hc2 => Option.noConfusion hc2⟩
    · exact ⟨closeNote_inv _ _ _ hacc (hcur c hc), fun c2 hc2 => Option.noConfusion hc2⟩
  · dsimp only
    rcases hr : resolveFrame f with - | ⟨name, oct, f2⟩
    · exact ⟨hacc, fun c2 hc2 => hcur c2 hc2⟩
    · dsimp only
      have hoct := resolveFrame_octave f name oct f2 hr
      rcases hc : cur with - | c
      · exact ⟨hacc, fun c2 hc2 => by injection hc2 with h5; rw [← h5]; exact hoct⟩
      · dsimp only
        split_ifs <;>
          first
            | exact ⟨hacc, fun c2 hc2 => by
                injection hc2 with h5
                rw [← h5]
                exact hcur c hc⟩
            | exact ⟨closeNote_inv _ _ _ hacc (hcur c hc), fun c2 hc2 => by
                injection hc2 with h5
                rw [← h5]
                exact hoct⟩

lemma foldl_stepFrame_inv (frames : List Frame) (st : Option OpenNote × List PNote)
    (hacc : ∀ n ∈ st.2, 1 ≤ n.octave ∧ n.octave ≤ 7)
    (hcur : ∀ c, st.1 = some c → 1 ≤ c.octave ∧ c.octave ≤ 7) :
    (∀ n ∈ (frames.foldl stepFrame st).2, 1 ≤ n.octave ∧ n.octave ≤ 7) ∧
    (∀ c, (frames.foldl stepFrame st).1 = some c → 1 ≤ c.octave ∧ c.octave ≤ 7) := by
  induction frames generalizing st with
  | nil => exact ⟨hacc, hcur⟩
  | cons fr rest ih =>
    have h := stepFrame_inv st fr hacc hcur
    exact ih (stepFrame st fr) h.1 h.2

lemma segmentNotes_inv (frames : List Frame) :
    ∀ n ∈ segmentNotes frames, 1 ≤ n.octave ∧ n.octave ≤ 7 := by
  unfold segmentNotes
  have h := foldl_stepFrame_inv frames (none, []) (by simp) (by simp)
  rcases hc : (frames.foldl stepFrame (none, [])).1 with - | c
  · simpa [hc] using h.1
  · simp only [hc]
    split_ifs with h1 h2
    · exact closeNote_inv _ _ _ h.1 (h.2 c hc)
    · exact closeNote_inv _ _ _ h.1 (h.2 c hc)
    · exact h.1

lemma mem_insertByTime (x n : PNote) (l : List PNote) (h : x ∈ insertByTime n l) :
    x = n ∨ x ∈ l := by
  induction l with
  | nil =>
    simp [insertByTime] at h
    exact Or.inl h
  | cons m ms ih =>
    unfold insertByTime at h
    split_ifs at h
    · rcases List.mem_cons.mp h with h2 | h2
      · exact Or.inl h2
      · exact Or.inr h2
    · rcases List.mem_cons.mp h with h2 | h2
      · exact Or.inr (h2 ▸ List.mem_cons_self m ms)
      · rcases ih h2 with h3 | h3
        · exact Or.inl h3
        · exact Or.inr (List.mem_cons_of_mem m h3)

lemma mem_sortByTime (x : PNote) (l : List PNote) (h : x ∈ sortByTime l) : x ∈ l := by
  induction l with
  | nil => simp [sortByTime] at h
  | cons a t ih =>
    have h2 : x ∈ insertByTime a (sortByTime t) := h
    rcases mem_insertByTime x a (sortByTime t) h2 with h3 | h3
    · exact h3 ▸ List.mem_cons_self a t
    · exact List.mem_cons_of_mem a (ih h3)

lemma filterStep_inv (acc : List PNote) (note : PNote)
    (hacc : ∀ n ∈ acc, 1 ≤ n.octave ∧ n.octave ≤ 7)
    (hn : 1 ≤ note.octave ∧ note.octave ≤ 7) :
    ∀ n ∈ filterStep acc note, 1 ≤ n.octave ∧ n.octave ≤ 7 := by
  intro n hmem
  unfold filterStep at hmem
  rcases hl : acc.getLast? with - | prev
  · rw [hl] at hmem
    simp at hmem
    rw [hmem]
    exact hn
  · rw [hl] at hmem
    dsimp only at hmem
    have hprev := hacc prev (List.mem_of_mem_getLast? (by rw [hl]; rfl))
    split_ifs at hmem
    · rcases List.mem_append.mp hmem with h | h
      · exact hacc n h
      · simp at h
        rw [h]
        exact hn
    · rcases List.mem_append.mp hmem with h | h
      · exact hacc n (List.dropLast_subset acc h)
      · simp at h
        rw [h]
        exact hprev

lemma filterCloseNotes_inv (notes : List PNote)
    (hnotes : ∀ n ∈ notes, 1 ≤ n.octave ∧ n.octave ≤ 7) :
    ∀ n ∈ filterCloseNotes notes, 1 ≤ n.octave ∧ n.octave ≤ 7 := by
  unfold filterCloseNotes
  have hgen : ∀ (acc : List PNote), (∀ n ∈ acc, 1 ≤ n.octave ∧ n.octave ≤ 7) →
      ∀ n ∈ notes.foldl filterStep acc, 1 ≤ n.octave ∧ n.octave ≤ 7 := by
    induction notes with
    | nil => intro acc hacc; exact hacc
    | cons a t ih =>
      intro acc hacc
      intro n hn
      have hfirst := filterStep_inv acc a hacc (hnotes a (List.mem_cons_self a t))
      exact ih (fun m hm => hnotes m (List.mem_cons_of_mem a hm)) (filterStep acc a) hfirst n hn
  exact hgen [] (by simp)

/-- C6: every note returned by `extract_notes_from_piano_audio` has an
octave between 1 and 7.  New open notes only arise from frames whose
resolved pitch passed the octave filter (below-1 octaves are accepted
only after a successful doubling correction into 1..7, above-7 octaves
are dropped), and closing, sorting, gap-filtering (which reuses the
previous note's pitch when merging) and duration quantization preserve
the octave field. -/
theorem c6_octave_range_invariant (frames : List Frame) :
    ∀ n ∈ extract_notes_from_piano_audio frames, 1 ≤ n.octave ∧ n.octave ≤ 7 := by
  intro n hn
  unfold extract_notes_from_piano_audio quantizeNotes at hn
  rcases List.mem_map.mp hn with ⟨m, hm, hmn⟩
  have hm2 := filterCloseNotes_inv _ (fun x hx => segmentNotes_inv frames x (mem_sortByTime x _ hx)) m hm
  rw [← hmn]
  exact hm2

/-- C9 witness: idempotence at the concrete measured duration 0.12 s. -/
theorem c9_quantization_idempotent_witness :
    quantizeDuration (quantizeDuration 0.12) = quantizeDuration 0.12 :=
  c9_quantization_idempotent 0.12

/-- The exact equal-tempered frequency of middle C, C4 = 440·2^(-9/12)
≈ 261.63 Hz. -/
noncomputable def fC4 : ℝ := 440 * (2 : ℝ) ^ ((-3 : ℝ) / 4)

lemma fC4_ge_220 : 220 ≤ fC4 := by
  have h : (2 : ℝ) ^ ((-1 : ℝ)) ≤ (2 : ℝ) ^ ((-3 : ℝ) / 4) := by
    rw [Real.rpow_le_rpow_left_iff (by norm_num : (1:ℝ) < 2)]
    norm_num
  have h2 : (2 : ℝ) ^ ((-1 : ℝ)) = 2⁻¹ := by
    rw [show ((-1 : ℝ)) = ((-1 : ℤ) : ℝ) by norm_num, Real.rpow_intCast]
    norm_num
  unfold fC4
  rw [h2] at h
  nlinarith

lemma fC4_le_440 : fC4 ≤ 440 := by
  have h : (2 : ℝ) ^ ((-3 : ℝ) / 4) ≤ (2 : ℝ) ^ ((0 : ℝ)) := by
    rw [Real.rpow_le_rpow_left_iff (by norm_num : (1:ℝ) < 2)]
    norm_num
  rw [Real.rpow_zero] at h
  unfold fC4
  nlinarith

lemma fC4_pos : 0 < fC4 := by linarith [fC4_ge_220]

lemma semitonesFromA4_fC4 : semitonesFromA4 fC4 = -9 := by
  unfold semitonesFromA4 fC4
  rw [mul_div_cancel_left₀ _ (by norm_num : (440:ℝ) ≠ 0)]
  rw [Real.logb_rpow (by norm_num : (0:ℝ) < 2) (by norm_num : (2:ℝ) ≠ 1)]
  rw [show (12 : ℝ) * ((-3 : ℝ) / 4) = ((-9 : ℤ) : ℝ) by norm_num]
  exact pyRound_intCast (-9)

lemma frequency_to_note_fC4 : frequency_to_note fC4 = (some "C", some 4) := by
  rw [frequency_to_note_pos fC4 (not_le.mpr fC4_pos)]
  rw [resolvePitch_no_correction fC4 (by
    rw [semitonesFromA4_fC4]
    rintro ⟨h1, -⟩
    rw [show (-9 : ℤ) + 9 = 0 by norm_num] at h1
    have : rawOctave 0 = 4 := by decide
    omega)]
  rw [semitonesFromA4_fC4]
  rw [show (-9 : ℤ) + 9 = 0 by norm_num]
  have hi : Int.fmod (0 : ℤ) 12 = 0 := by decide
  have ho : rawOctave 0 = 4 := by decide
  rw [hi, ho]
  unfold finalizePitch
  rw [if_neg (by norm_num)]
  rw [if_neg (by rintro ⟨h1, -⟩; linarith [fC4_ge_220])]
  rfl

lemma resolveFrame_fC4 : resolveFrame fC4 = some ("C", 4, fC4) := by
  unfold resolveFrame
  rw [frequency_to_note_fC4]
  simp only
  rw [if_neg (by norm_num)]
  rw [if_neg (by norm_num)]

lemma validFreq_fC4 (t : ℝ) : validFreq ⟨t, some fC4, true⟩ = some fC4 := by
  unfold validFreq
  simp only
  rw [if_pos ⟨by trivial, by linarith [fC4_ge_220], by linarith [fC4_le_440]⟩]

lemma validFreq_unvoiced (t : ℝ) : validFreq ⟨t, none, false⟩ = none := rfl

lemma step_onset (t : ℝ) (acc : List PNote) :
    stepFrame (none, acc) ⟨t, some fC4, true⟩ = (some ⟨t, "C", 4, fC4⟩, acc) := by
  unfold stepFrame
  rw [validFreq_fC4]
  dsimp only
  rw [resolveFrame_fC4]

lemma step_cont (t t0 : ℝ) (acc : List PNote) :
    stepFrame (some ⟨t0, "C", 4, fC4⟩, acc) ⟨t, some fC4, true⟩ =
      (some ⟨t0, "C", 4, fC4⟩, acc) := by
  unfold stepFrame
  rw [validFreq_fC4]
  dsimp only
  rw [resolveFrame_fC4]
  dsimp only
  have h1 : (if (0:ℝ) < fC4 then fC4 / fC4 else 1) = 1 := by
    rw [if_pos fC4_pos, div_self (ne_of_gt fC4_pos)]
  rw [h1]
  have h2 : (if (0:ℝ) < 1 then 1200 * Real.logb 2 1 else 1000) = 0 := by
    rw [if_pos one_pos, Real.logb_one]
    ring
  rw [h2]
  rw [if_pos ⟨by norm_num, rfl, rfl⟩]

lemma step_unvoiced (t t0 : ℝ) (acc : List PNote) (h : 0.1 ≤ t - t0) :
    stepFrame (some ⟨t0, "C", 4, fC4⟩, acc) ⟨t, none, false⟩ =
      (none, acc ++ [⟨t0, "C", 4, fC4, t - t0⟩]) := by
  unfold stepFrame
  rw [validFreq_unvoiced]
  dsimp only
  unfold closeNote
  rw [if_pos h]

/-- The per-frame pitch stream of the C2 scenario: frames every 30 ms,
a first voiced C4 segment at times 0 to 0.09 s (closed at 0.12 s, so it
lasts 120 ms ≥ 100 ms), one unvoiced frame at 0.12 s giving a 30 ms
unvoiced gap, and a second voiced C4 segment at 0.15 to 0.27 s (closed
at the extrapolated stream end 0.30 s, so it lasts 150 ms ≥ 100 ms). -/
noncomputable def streamC2 : List Frame :=
  [⟨0, some fC4, true⟩, ⟨0.03, some fC4, true⟩, ⟨0.06, some fC4, true⟩,
   ⟨0.09, some fC4, true⟩, ⟨0.12, none, false⟩, ⟨0.15, some fC4, true⟩,
   ⟨0.18, some fC4, true⟩, ⟨0.21, some fC4, true⟩, ⟨0.24, some fC4, true⟩,
   ⟨0.27, some fC4, true⟩]

lemma foldl_streamC2 :
    streamC2.foldl stepFrame (none, []) =
      (some ⟨0.15, "C", 4, fC4⟩, [⟨0, "C", 4, fC4, 0.12⟩]) := by
  unfold streamC2
  norm_num [List.foldl_cons, List.foldl_nil, step_onset, step_cont, step_unvoiced]

lemma segmentNotes_streamC2 :
    segmentNotes streamC2 =
      [⟨0, "C", 4, fC4, 0.12⟩, ⟨0.15, "C", 4, fC4, 0.15⟩] := by
  unfold segmentNotes
  rw [foldl_streamC2]
  dsimp only
  norm_num [streamC2, closeNote, List.getLastD, List.getD]

lemma sortByTime_streamC2 :
    sortByTime [(⟨0, "C", 4, fC4, 0.12⟩ : PNote), ⟨0.15, "C", 4, fC4, 0.15⟩] =
      [⟨0, "C", 4, fC4, 0.12⟩, ⟨0.15, "C", 4, fC4, 0.15⟩] := by
  norm_num [sortByTime, insertByTime]

lemma filterCloseNotes_streamC2 :
    filterCloseNotes [(⟨0, "C", 4, fC4, 0.12⟩ : PNote), ⟨0.15, "C", 4, fC4, 0.15⟩] =
      [⟨0, "C", 4, fC4, 0.12⟩, ⟨0.15, "C", 4, fC4, 0.15⟩] := by
  norm_num [filterCloseNotes, filterStep, List.foldl]

lemma quantizeDuration_012 : quantizeDuration 0.12 = 0.125 := by
  norm_num [quantizeDuration, nearestStandard, pyMinByDist, stdDurations, List.foldl,
    abs_of_nonneg, abs_of_nonpos]

lemma quantizeDuration_015 : quantizeDuration 0.15 = 0.125 := by
  norm_num [quantizeDuration, nearestStandard, pyMinByDist, stdDurations, List.foldl,
    abs_of_nonneg, abs_of_nonpos]

lemma extract_notes_from_piano_audio_streamC2 :
    extract_notes_from_piano_audio streamC2 =
      [⟨0, "C", 4, fC4, 0.125⟩, ⟨0.15, "C", 4, fC4, 0.125⟩] := by
  unfold extract_notes_from_piano_audio
  rw [segmentNotes_streamC2, sortByTime_streamC2, filterCloseNotes_streamC2]
  unfold quantizeNotes
  rw [List.map_cons, List.map_cons, List.map_nil]
  rw [quantizeDuration_012, quantizeDuration_015]

/-- C2 counterexample: a per-frame stream with two voiced C4 segments of
120 ms and 150 ms separated by a 30 ms unvoiced gap is segmented into
two notes, not one.  The 50 ms minimum onset gap is measured between the
onsets of consecutive kept notes; here the second onset is 150 ms after
the first, so no merging happens and both notes are kept. -/
theorem c2_counterexample : (extract_notes_from_piano_audio streamC2).length = 2 := by
  rw [extract_notes_from_piano_audio_streamC2]
  rfl

/-- C2 amended: on a pitch stream with two retained voiced C4 segments
separated by a 30 ms unvoiced gap, `extract_notes_from_piano_audio`
returns two C4 notes, one per segment.  The same-pitch merge rule
compares note onsets, and two notes that each last at least the 100 ms
minimum duration necessarily have onsets more than 50 ms apart, so the
30 ms unvoiced gap does not cause a merge. -/
theorem c2_amended_two_notes :
    extract_notes_from_piano_audio streamC2 =
      [⟨0, "C", 4, fC4, 0.125⟩, ⟨0.15, "C", 4, fC4, 0.125⟩] :=
  extract_notes_from_piano_audio_streamC2

/-- C6 witness: the first note of the C2 stream extraction is a concrete
member of an `extract_notes_from_piano_audio` result, and its octave (4) lies in 1..7. -/
theorem c6_octave_range_invariant_witness :
    1 ≤ (PNote.mk 0 "C" 4 fC4 0.125).octave ∧ (PNote.mk 0 "C" 4 fC4 0.125).octave ≤ 7 :=
  c6_octave_range_invariant streamC2 ⟨0, "C", 4, fC4, 0.125⟩
    (by rw [extract_notes_from_piano_audio_streamC2]; exact List.mem_cons_self _ _)

/-- One `midi.addNote(track, channel, midi_note, time_beat, duration_beat,
volume)` call recorded by `notes_to_midi`; track and channel are the
constants 0 and the volume is the constant 100. -/
structure MidiEvent where
  note : ℤ
  timeBeat : ℝ
  durationBeat : ℝ
  volume : ℤ

/-- The `note_to_midi` pitch-class dictionary of `notes_to_midi`.  The
source indexes the dict directly (raising `KeyError` on an unknown
name); every name produced upstream is in the dictionary, and `getD`
with an unreachable default models the lookup totally. -/
def note_to_midi_offset (s : String) : ℤ :=
  (([("C", 0), ("C#", 1), ("D", 2), ("D#", 3), ("E", 4), ("F", 5), ("F#", 6),
    ("G", 7), ("G#", 8), ("A", 9), ("A#", 10), ("B", 11)] : List (String × ℤ)).lookup s).getD 0

/-- The per-note body of the `notes_to_midi` loop (lines 520-557): skip
notes with octave outside 1..7, compute the MIDI note number
`(octave + 1) * 12 + offset` clamped into `[24, 108]`, convert onset and
duration from seconds to beats at the given tempo, clamp the duration
into `[0.125, 16]` beats, and emit the event only when the onset beat is
nonnegative and the duration beat positive. -/
noncomputable def noteEvent (tempo : ℤ) (n : PNote) : Option MidiEvent :=
  if n.octave < 1 then none
  else if 7 < n.octave then none
  else
    let timeBeat := n.time * tempo / 60
    let midiNote := max 24 (min 108 ((n.octave + 1) * 12 + note_to_midi_offset n.name))
    let durationBeat := max 0.125 (min (n.duration * tempo / 60) 16)
    if 0 ≤ timeBeat ∧ 0 < durationBeat then some ⟨midiNote, timeBeat, durationBeat, 100⟩
    else none

/-- The sequence of note events emitted by `notes_to_midi`. -/
noncomputable def notes_to_midi_events (notes : List PNote) (tempo : ℤ) : List MidiEvent :=
  notes.filterMap (noteEvent tempo)

/-- C7: for a well-formed note (name in the pitch-class table,
nonnegative onset) and a positive tempo, `notes_to_midi` emits exactly
the event with note number `(octave + 1) * 12 + offset` clamped into
`[24, 108]` and duration `duration * tempo / 60` beats clamped into
`[0.125, 16]` when the octave lies in 1..7, and emits nothing when the
octave lies outside 1..7. -/
theorem c7_midi_encoder (n : PNote) (tempo : ℤ) (_hname : n.name ∈ NOTE_NAMES)
    (ht : 0 ≤ n.time) (htempo : 0 < tempo) :
    (1 ≤ n.octave → n.octave ≤ 7 →
      noteEvent tempo n =
        some ⟨max 24 (min 108 ((n.octave + 1) * 12 + note_to_midi_offset n.name)),
          n.time * tempo / 60, max 0.125 (min (n.duration * tempo / 60) 16), 100⟩) ∧
    (n.octave < 1 ∨ 7 < n.octave → noteEvent tempo n = none) := by
  constructor
  · intro h1 h2
    unfold noteEvent
    rw [if_neg (not_lt.mpr h1), if_neg (not_lt.mpr h2)]
    dsimp only
    rw [if_pos]
    constructor
    · have htempoR : (0 : ℝ) ≤ (tempo : ℝ) := by
        have := htempo
        exact_mod_cast le_of_lt this
      positivity
    · have h3 : (0 : ℝ) < 0.125 := by norm_num
      calc (0 : ℝ) < 0.125 := h3
        _ ≤ max 0.125 (min (n.duration * tempo / 60) 16) := le_max_left _ _
  · intro h
    unfold noteEvent
    rcases h with h | h
    · rw [if_pos h]
    · rw [if_neg (by omega), if_pos h]

/-- C7 witness: middle C with onset 0 s and duration 1 s at tempo 120
becomes MIDI note 60, onset beat 0, duration 2 beats. -/
theorem c7_midi_encoder_witness :
    noteEvent 120 ⟨0, "C", 4, 261.63, 1⟩ = some ⟨60, 0, 2, 100⟩ := by
  have h := (c7_midi_encoder ⟨0, "C", 4, 261.63, 1⟩ 120 (by simp [NOTE_NAMES])
    (le_refl 0) (by norm_num)).1 (by norm_num) (by norm_num)
  rw [h]
  have hoff : note_to_midi_offset "C" = 0 := by rfl
  rw [hoff]
  norm_num [max_def, min_def]

/-- `np.max(np.abs(y))` for the (nonempty) filtered signal.  The fold
starts from 0, which for a nonempty list of absolute values equals the
numpy maximum. -/
noncomputable def maxAbs (y : List ℝ) : ℝ :=
  (y.map (fun x => |x|)).foldl max 0

/-- The final peak-normalization of `extract_piano_from_audio`
(lines 182-184): divide by the maximum absolute sample only when that
maximum is positive. -/
noncomputable def normalizeAudio (y : List ℝ) : List ℝ :=
  if 0 < maxAbs y then y.map (fun x => x / maxAbs y) else y

lemma foldl_max_bounds (l : List ℝ) (init : ℝ) :
    init ≤ l.foldl max init ∧ ∀ x ∈ l, x ≤ l.foldl max init := by
  induction l generalizing init with
  | nil => exact ⟨le_refl _, by simp⟩
  | cons a t ih =>
    simp only [List.foldl_cons]
    have h := ih (max init a)
    refine ⟨le_trans (le_max_left _ _) h.1, ?_⟩
    intro x hx
    rcases List.mem_cons.mp hx with h2 | h2
    · subst h2
      exact le_trans (le_max_right _ _) h.1
    · exact h.2 x h2

lemma abs_le_maxAbs (y : List ℝ) (x : ℝ) (hx : x ∈ y) : |x| ≤ maxAbs y :=
  (foldl_max_bounds (y.map (fun x => |x|)) 0).2 |x| (List.mem_map.mpr ⟨x, hx, rfl⟩)

lemma foldl_max_div (l : List ℝ) (init m : ℝ) (hm : 0 < m) :
    (l.map (fun x => x / m)).foldl max (init / m) = (l.foldl max init) / m := by
  induction l generalizing init with
  | nil => rfl
  | cons a t ih =>
    simp only [List.map_cons, List.foldl_cons]
    rw [max_div_div_right (le_of_lt hm) init a]
    exact ih (max init a)

lemma maxAbs_map_div (y : List ℝ) (hm : 0 < maxAbs y) :
    maxAbs (y.map (fun x => x / maxAbs y)) = 1 := by
  unfold maxAbs at hm ⊢
  set m := (y.map (fun x => |x|)).foldl max 0 with hmdef
  have habs : (y.map (fun x => x / m)).map (fun x => |x|) =
      (y.map (fun x => |x|)).map (fun x => x / m) := by
    rw [List.map_map, List.map_map]
    apply List.map_congr_left
    intro a ha
    simp only [Function.comp_apply]
    rw [abs_div, abs_of_pos hm]
  rw [habs]
  have h0 : (0 : ℝ) = 0 / m := by rw [zero_div]
  rw [h0, foldl_max_div _ _ _ hm, ← hmdef]
  exact div_self (ne_of_gt hm)

/-- C10: the peak normalization at the end of `extract_piano_from_audio`
is guarded against division by zero.  When the maximum absolute sample
is 0 the signal is returned unscaled (and is in fact all zeros);
when it is positive the returned signal has peak absolute amplitude
exactly 1. -/
theorem c10_normalization_guard (y : List ℝ) :
    (maxAbs y = 0 → normalizeAudio y = y ∧ ∀ x ∈ y, x = 0) ∧
    (0 < maxAbs y → maxAbs (normalizeAudio y) = 1) := by
  constructor
  · intro h0
    constructor
    · unfold normalizeAudio
      rw [if_neg (by rw [h0]; exact lt_irrefl 0)]
    · intro x hx
      have h1 := abs_le_maxAbs y x hx
      rw [h0] at h1
      have h2 := abs_nonneg x
      have : |x| = 0 := le_antisymm h1 h2
      exact abs_eq_zero.mp this
  · intro hpos
    unfold normalizeAudio
    rw [if_pos hpos]
    exact maxAbs_map_div y hpos

/-- C10 witness: the one-sample signal `[1/2]` has positive peak 1/2 and
normalizes to peak exactly 1. -/
theorem c10_normalization_guard_witness :
    maxAbs (normalizeAudio [1/2]) = 1 :=
  (c10_normalization_guard [1/2]).2 (by
    norm_num [maxAbs, List.foldl, max_def, abs_of_nonneg])

/-- The three renderers available to the notation stage and their
availability/outcomes in a given run: the MuseScore-based
`midi_to_pdf_workflow`, the music21-based body of
`generate_sheet_music_pdf`, and `_generate_simple_sheet_pdf`. -/
structure RendererOutcomes where
  workflow : Except String Unit
  music21Avail : Bool
  music21Render : Except String Unit
  simple : Except String Unit

/-- `generate_sheet_music_pdf` (lines 722-795): without music21 it calls
the simple text renderer directly; with music21 it tries the music21
renderer and falls back to the simple renderer on any exception (whose
own failure then propagates). -/
def generate_sheet_music_pdf (o : RendererOutcomes) : Except String Unit :=
  if o.music21Avail = false then o.simple
  else
    match o.music21Render with
    | .ok _ => .ok ()
    | .error _ => o.simple

/-- The notation step of `process_audio_to_piano_sheet` (lines 1001-1013):
try `midi_to_pdf_workflow`; on exception try `generate_sheet_music_pdf`;
on exception call `_generate_simple_sheet_pdf` with no surrounding
try/except, so its failure propagates out of the orchestrator. -/
def notationStage (o : RendererOutcomes) : Except String Unit :=
  match o.workflow with
  | .ok _ => .ok ()
  | .error _ =>
    match generate_sheet_music_pdf o with
    | .ok _ => .ok ()
    | .error _ => o.simple

/-- The manifest dictionary returned by `process_audio_to_piano_sheet`. -/
structure Manifest where
  pianoAudio : String
  midi : String
  pdf : String
  synthesizedAudio : Option String
  notesCount : ℕ

/-- The control skeleton of `process_audio_to_piano_sheet`
(lines 947-1032): piano extraction and the MIDI write propagate their
exceptions, an empty note list raises, the notation stage is as in
`notationStage`, and a synthesis failure is caught and recorded as a
missing manifest field. -/
def process_audio_to_piano_sheet (extract : Except String Unit) (notes : List PNote)
    (midiWrite : Except String Unit) (o : RendererOutcomes)
    (synth : Except String Unit) : Except String Manifest :=
  match extract with
  | .error e => .error e
  | .ok _ =>
    if notes.length = 0 then
      .error "No notes extracted from audio. Please check the audio file."
    else
      match midiWrite with
      | .error e => .error e
      | .ok _ =>
        match notationStage o with
        | .error e => .error e
        | .ok _ =>
          .ok ⟨"piano.wav", "piano.mid", "sheet_music.pdf",
            (match synth with | .ok _ => some "synthesized.wav" | .error _ => none),
            notes.length⟩

/-- C4 counterexample: with successful extraction, one segmented note
and a successful MIDI write, the failure of all three renderers
(MuseScore workflow, music21 renderer and the simple text renderer)
aborts the pipeline: the final `_generate_simple_sheet_pdf` call at line
1013 is not wrapped in try/except, so its exception propagates and no
manifest is returned. -/
theorem c4_counterexample :
    process_audio_to_piano_sheet (.ok ()) [⟨0, "C", 4, 261.63, 0.125⟩] (.ok ())
      ⟨.error "musescore failed", true, .error "music21 failed", .error "reportlab failed"⟩
      (.ok ()) = .error "reportlab failed" := rfl

/-- C4 amended: with successful extraction, at least one note and a
successful MIDI write, a failure of the MuseScore workflow and of the
music21 renderer does not abort the pipeline provided the simple text
renderer succeeds: the manifest is returned (with the notation artifact
possibly degraded to the simple fallback, and the synthesized-audio
field possibly missing).  Only when every renderer in the chain fails,
including the simple text renderer, does the pipeline abort. -/
theorem c4_amended (notes : List PNote) (o : RendererOutcomes)
    (synth : Except String Unit) (hnotes : notes.length ≠ 0) :
    (o.simple = .ok () →
      process_audio_to_piano_sheet (.ok ()) notes (.ok ()) o synth =
        .ok ⟨"piano.wav", "piano.mid", "sheet_music.pdf",
          (match synth with | .ok _ => some "synthesized.wav" | .error _ => none),
          notes.length⟩) ∧
    (∀ e1 e2 e3, o.workflow = .error e1 → o.music21Render = .error e2 →
      o.simple = .error e3 →
      process_audio_to_piano_sheet (.ok ()) notes (.ok ()) o synth = .error e3) := by
  constructor
  · intro hsimple
    have hn : notationStage o = .ok () := by
      unfold notationStage generate_sheet_music_pdf
      rcases hw : o.workflow with e | -
      · rcases hav : o.music21Avail with - | -
        · simp [hsimple]
        · rcases hr : o.music21Render with e2 | - <;> simp [hsimple]
      · rfl
    unfold process_audio_to_piano_sheet
    rw [if_neg hnotes, hn]
  · intro e1 e2 e3 hw hr hsimple
    have hn : notationStage o = .error e3 := by
      unfold notationStage generate_sheet_music_pdf
      rw [hw, hr, hsimple]
      rcases hav : o.music21Avail with - | - <;> simp
    unfold process_audio_to_piano_sheet
    rw [if_neg hnotes, hn]

/-- C4 amended, witness: with the MuseScore workflow and the music21
renderer failing but the simple renderer succeeding, the manifest is
returned; with all three failing, the pipeline aborts with the simple
renderer's error. -/
theorem c4_amended_witness :
    process_audio_to_piano_sheet (.ok ()) [⟨0, "C", 4, 261.63, 0.125⟩] (.ok ())
      ⟨.error "musescore failed", true, .error "music21 failed", .ok ()⟩ (.error "synth failed") =
      .ok ⟨"piano.wav", "piano.mid", "sheet_music.pdf", none, 1⟩ ∧
    process_audio_to_piano_sheet (.ok ()) [⟨0, "C", 4, 261.63, 0.125⟩] (.ok ())
      ⟨.error "musescore failed", true, .error "music21 failed", .error "reportlab failed"⟩
      (.ok ()) = .error "reportlab failed" := by
  constructor
  · exact (c4_amended [⟨0, "C", 4, 261.63, 0.125⟩]
      ⟨.error "musescore failed", true, .error "music21 failed", .ok ()⟩
      (.error "synth failed") (by norm_num)).1 rfl
  · exact (c4_amended [⟨0, "C", 4, 261.63, 0.125⟩]
      ⟨.error "musescore failed", true, .error "music21 failed", .error "reportlab failed"⟩
      (.ok ()) (by norm_num)).2 "musescore failed" "music21 failed" "reportlab failed"
      rfl rfl rfl

/-- `midi_to_pdf_workflow` (lines 797-878) as a file-system transition:
given the files existing next to the output PDF, the outcome of the
music21 parse/quantize/MusicXML-write phase and the outcome of the
MuseScore conversion, return the workflow's outcome together with the
final file set.  The `.musicxml` intermediate is written before the
MuseScore step; it is removed (inside its own try/except) only after a
successful conversion, because the surrounding try/except re-raises
without any cleanup handler. -/
def midi_to_pdf_workflow (fs : List String) (parse : Except String Unit)
    (musescore : Except String Unit) : Except String Unit × List String :=
  match parse with
  | .error e => (.error ("Error in MIDI to PDF workflow: " ++ e), fs)
  | .ok _ =>
    let fs1 := fs ++ ["sheet_music.musicxml"]
    match musescore with
    | .error e => (.error ("Error in MIDI to PDF workflow: " ++ e), fs1)
    | .ok _ => (.ok (), fs1.erase "sheet_music.musicxml")

/-- C5 counterexample: when the MuseScore conversion step raises, the
workflow re-raises the wrapped exception while the intermediate
`.musicxml` file it created is still on disk: the cleanup at lines
869-873 runs only after a successful conversion. -/
theorem c5_counterexample :
    (midi_to_pdf_workflow [] (.ok ()) (.error "MuseScore conversion failed")).2 =
      ["sheet_music.musicxml"] ∧
    (midi_to_pdf_workflow [] (.ok ()) (.error "MuseScore conversion failed")).1 =
      .error "Error in MIDI to PDF workflow: MuseScore conversion failed" :=
  ⟨rfl, rfl⟩

/-- C5 amended: `midi_to_pdf_workflow` removes the intermediate
`.musicxml` file on the success path, but when the MuseScore conversion
step raises, the exception propagates and the file is left behind. -/
theorem c5_amended (fs : List String) (hnot : "sheet_music.musicxml" ∉ fs) :
    (midi_to_pdf_workflow fs (.ok ()) (.ok ())).2 = fs ∧
    (∀ e, "sheet_music.musicxml" ∈ (midi_to_pdf_workflow fs (.ok ()) (.error e)).2) := by
  constructor
  · show (fs ++ ["sheet_music.musicxml"]).erase "sheet_music.musicxml" = fs
    rw [List.erase_append_right _ hnot]
    simp
  · intro e
    show "sheet_music.musicxml" ∈ fs ++ ["sheet_music.musicxml"]
    simp

/-- C5 amended, witness: starting from an empty directory, success
leaves no intermediate file, failure leaves it. -/
theorem c5_amended_witness :
    (midi_to_pdf_workflow [] (.ok ()) (.ok ())).2 = [] ∧
    "sheet_music.musicxml" ∈ (midi_to_pdf_workflow [] (.ok ()) (.error "timeout")).2 :=
  ⟨(c5_amended [] (by simp)).1, (c5_amended [] (by simp)).2 "timeout"⟩

end PianoVerify
